import Mathlib

/-!
Verification of the variable-resolution engine of `postcss-auto-var-fallback`.

The engine (src/index.js) is shallowly embedded here:
strings are lists of characters (`Str`), the PostCSS declaration walk is a
fold over a list of declarations, the JavaScript regular expression
`var\(([^,)]+)(?:,([^)]+))?\)` together with the `exec` loop is embedded as
an executable scanner (`matchVarAt` / `findVar` / `varMatches`), and the
recursive resolver and circular-reference detector are embedded with an
explicit fuel argument that mirrors the depth bound of the JavaScript
recursion (the recursion depth is bounded by the number of variables in the
merged mapping, which is proved below as a fuel-independence theorem).
Warnings are modelled as values of an inductive type collected in lists.
-/

/-- JavaScript strings, modelled as lists of characters. -/
abbrev Str := List Char

/-- Literal helper: the character list of a string literal. -/
def str (s : String) : Str := s.toList

/-- The four characters `var(` that begin every variable reference. -/
def varHead : Str := ['v', 'a', 'r', '(']

/-- Decides whether `p` is a leading segment of `s`
(JavaScript `String.prototype.startsWith`). -/
def strStarts : Str → Str → Bool
  | [], _ => true
  | _ :: _, [] => false
  | p :: ps, c :: cs => p = c && strStarts ps cs

/-- JavaScript `String.prototype.trim`: drop whitespace from both ends. -/
def trim (s : Str) : Str :=
  ((s.dropWhile Char.isWhitespace).reverse.dropWhile Char.isWhitespace).reverse

/-- JavaScript `String.prototype.replace` with a plain string pattern:
replace the first occurrence of `pat` in `s` by `rep`
(the source never passes `$`-patterns whose JavaScript meaning would differ). -/
def replaceFirst : Str → Str → Str → Str
  | s, pat, rep =>
    if strStarts pat s then rep ++ s.drop pat.length
    else
      match s with
      | [] => []
      | c :: t => c :: replaceFirst t pat rep

/-- JavaScript `Map.prototype.get` on an association list built by `mapSet`
(first matching key; `mapSet` keeps keys unique). -/
def lookupMap : List (Str × Str) → Str → Option Str
  | [], _ => none
  | (k, v) :: rest, n => if k = n then some v else lookupMap rest n

/-- JavaScript `Map.prototype.set`: overwrite the value in place if the key
exists (keeping the original insertion position), otherwise append. -/
def mapSet (m : List (Str × Str)) (k v : Str) : List (Str × Str) :=
  if (lookupMap m k).isSome then
    m.map fun p => if p.1 = k then (k, v) else p
  else m ++ [(k, v)]

/-- Insertion-ordered keys of the variable map
(`variableMap.entries()` iteration order). -/
def keysOf (map : List (Str × Str)) : List Str := map.map Prod.fst

/-- Diagnostics emitted through `result.warn`, tagged by their cause. -/
inductive Warning where
  /-- "Fallbacks must be an array of file paths". -/
  | config : Warning
  /-- "Error processing fallback file ..." for a source that failed to load. -/
  | loadError (source : Str) : Warning
  /-- "Circular reference detected for variable ..." naming the variable. -/
  | circular (name : Str) : Warning
deriving DecidableEq, Repr

/-- A CSS declaration as exposed by the stylesheet parser:
a property name and a value string. -/
structure Decl where
  prop : Str
  value : Str
deriving DecidableEq, Repr

/-!
The regular expression `var\(([^,)]+)(?:,([^)]+))?\)`.

A match at a given position consists of the literal text `var(`, a nonempty
first group of characters other than `,` and `)`, and then either a closing
`)` or a comma, a nonempty second group of characters other than `)`, and a
closing `)`.  Backtracking cannot produce any other match shape because both
character classes exclude exactly the characters that must follow them.
-/

/-- Attempt to match the `var()` pattern at the start of `s`.
Returns the full matched text, the first capture group (the variable name
text) and the optional second capture group (the fallback text). -/
def matchVarAt : Str → Option (Str × Str × Option Str)
  | 'v' :: 'a' :: 'r' :: '(' :: rest =>
    let g1 := rest.takeWhile fun c => !(c = ',' || c = ')')
    let rest2 := rest.dropWhile fun c => !(c = ',' || c = ')')
    if g1 = [] then none
    else
      match rest2 with
      | ')' :: _ => some ('v' :: 'a' :: 'r' :: '(' :: (g1 ++ [')']), g1, none)
      | ',' :: rest3 =>
        let g2 := rest3.takeWhile fun c => !(c = ')')
        let rest4 := rest3.dropWhile fun c => !(c = ')')
        if g2 = [] then none
        else
          match rest4 with
          | ')' :: _ =>
            some ('v' :: 'a' :: 'r' :: '(' :: (g1 ++ [','] ++ g2 ++ [')']),
              g1, some g2)
          | _ => none
      | _ => none
  | _ => none

/-- Leftmost match of the `var()` pattern in `s`, as produced by
`regex.exec`: the text before the match, the full match, the two capture
groups, and the text after the match (from which the next `exec` continues). -/
def findVar : Str → Option (Str × Str × Str × Option Str × Str)
  | [] => none
  | c :: t =>
    match matchVarAt (c :: t) with
    | some (full, g1, g2) => some ([], full, g1, g2, (c :: t).drop full.length)
    | none =>
      match findVar t with
      | some (pre, full, g1, g2, suf) => some (c :: pre, full, g1, g2, suf)
      | none => none

/-- All successive non-overlapping matches of the `var()` pattern,
left to right, with a fuel argument making the recursion structural.
One unit of fuel is spent per match and every match consumes at least one
character, so `s.length` fuel is always sufficient (`varMatchesF_congr`). -/
def varMatchesF : Nat → Str → List (Str × Str × Option Str)
  | 0, _ => []
  | fuel + 1, s =>
    match findVar s with
    | none => []
    | some (_, full, g1, g2, suf) => (full, g1, g2) :: varMatchesF fuel suf

/-- All matches of the `var()` pattern in `s`
(the `while ((match = varRegex.exec(value)) !== null)` enumeration). -/
def varMatches (s : Str) : List (Str × Str × Option Str) :=
  varMatchesF s.length s

/-!  The variable resolver (`resolveVariable` in src/index.js). -/

/-- One iteration of the resolver's `while` loop: resolve the referenced
name; on success replace the first occurrence of the full matched text in
the accumulator by the resolved value, otherwise fall back to the trimmed
explicit fallback text when one was captured, otherwise leave the
accumulator unchanged.  Warnings of the recursive call are collected. -/
def resolveStep (res : Str → Option Str × List Warning)
    (acc : Str × List Warning) (m : Str × Str × Option Str) :
    Str × List Warning :=
  match res (trim m.2.1) with
  | (some s, ws) => (replaceFirst acc.1 m.1 s, acc.2 ++ ws)
  | (none, ws) =>
    match m.2.2 with
    | some fb => (replaceFirst acc.1 m.1 (trim fb), acc.2 ++ ws)
    | none => (acc.1, acc.2 ++ ws)

/-- `resolveVariable(varName, variableMap, resolving, result)`.
Returns `none` with a circular-reference warning if the name is already on
the current resolution path, `none` if the name has no entry in the mapping,
and otherwise the value with every `var()` match processed by `resolveStep`,
each recursive call receiving a copy of the path extended by the current
name.  The fuel argument bounds the recursion depth; the JavaScript
recursion is bounded by the mapping size because every recursion level adds
a distinct mapping key to the path (`resolveVarF_congr` below), so the
wrapper `resolveVariable` runs with fuel `map.length + 1`. -/
def resolveVarF (map : List (Str × Str)) :
    Nat → List Str → Str → Option Str × List Warning
  | 0, resolving, name =>
    if name ∈ resolving then (none, [Warning.circular name])
    else
      match lookupMap map name with
      | none => (none, [])
      | some _ => (none, [])
  | fuel + 1, resolving, name =>
    if name ∈ resolving then (none, [Warning.circular name])
    else
      match lookupMap map name with
      | none => (none, [])
      | some value =>
        let r := (varMatches value).foldl
          (resolveStep fun n => resolveVarF map fuel (name :: resolving) n)
          (value, [])
        (some r.1, r.2)

/-- The resolver as called by the declaration rewriter:
a fresh empty resolution path and sufficient fuel. -/
def resolveVariable (map : List (Str × Str)) (name : Str) :
    Option Str × List Warning :=
  resolveVarF map (map.length + 1) [] name

/-!  The circular-reference detector (`detectCircular` in src/index.js). -/

/-- Mutable state of the detection pass: the accumulating set of circular
variable names (`circularRefs`, modelled as an append list queried by
membership) and the warnings emitted so far. -/
structure DetSt where
  circ : List Str
  warns : List Warning
deriving DecidableEq, Repr

/-- The detector's `while` loop over the `var()` matches of a value:
walk each referenced name in turn; stop at the first one that closes a
cycle. -/
def detLoop (d : Str → DetSt → Bool × DetSt) :
    List (Str × Str × Option Str) → DetSt → Bool × DetSt
  | [], st => (false, st)
  | m :: ms, st =>
    let r := d (trim m.2.1) st
    if r.1 then (true, r.2) else detLoop d ms r.2

/-- `detectCircular(varName, path)`: if the name is already on the current
path, add it to the circular set, warn, and report a cycle; names absent
from the mapping are leaves; otherwise walk every referenced name with the
path extended by the current name, and if any walk reports a cycle add the
current name as well.  Fuel as for the resolver. -/
def detectCircularF (map : List (Str × Str)) :
    Nat → List Str → Str → DetSt → Bool × DetSt
  | 0, path, name, st =>
    if name ∈ path then
      (true, ⟨st.circ ++ [name], st.warns ++ [Warning.circular name]⟩)
    else
      match lookupMap map name with
      | none => (false, st)
      | some _ => (false, st)
  | fuel + 1, path, name, st =>
    if name ∈ path then
      (true, ⟨st.circ ++ [name], st.warns ++ [Warning.circular name]⟩)
    else
      match lookupMap map name with
      | none => (false, st)
      | some value =>
        let r := detLoop (fun n s => detectCircularF map fuel (name :: path) n s)
          (varMatches value) st
        if r.1 then (true, ⟨r.2.circ ++ [name], r.2.warns⟩) else (false, r.2)

/-- The detection pass: run the walk from every key of the mapping with a
fresh empty path, threading the accumulated state. -/
def detRun (map : List (Str × Str)) : DetSt :=
  (keysOf map).foldl
    (fun st k => (detectCircularF map (map.length + 1) [] k st).2) ⟨[], []⟩

/-- The set of variable names detected as circular (`circularRefs`). -/
def cycleSet (map : List (Str × Str)) : List Str := (detRun map).circ

/-!  The declaration rewriter (the `walkDecls` body of the plugin). -/

/-- The rewritten reference `var(<name>, <resolved>)` — a comma and a space
before the computed fallback. -/
def varWithFallback (name s : Str) : Str :=
  varHead ++ name ++ [',', ' '] ++ s ++ [')']

/-- The rewriter's scan of one declaration value: text before each match is
copied verbatim; a match whose (trimmed) name is in the circular set is
copied verbatim; otherwise the name is resolved and, when the result is a
nonempty string (JavaScript truthiness of `resolvedValue`), the occurrence
is replaced by `var(<name>, <resolved>)` and the declaration is marked
modified; otherwise the occurrence is copied verbatim.  Returns the rebuilt
value, the modified flag, and the warnings of all resolve calls.  One unit
of fuel per match; `v.length` fuel is always sufficient
(`rewriteGoF_congr`). -/
def rewriteGoF (circ : List Str) (res : Str → Option Str × List Warning) :
    Nat → Str → Str × Bool × List Warning
  | 0, v => (v, false, [])
  | fuel + 1, v =>
    match findVar v with
    | none => (v, false, [])
    | some (pre, full, g1, _, suf) =>
      let name := trim g1
      let r := rewriteGoF circ res fuel suf
      if name ∈ circ then (pre ++ full ++ r.1, r.2.1, r.2.2)
      else
        match res name with
        | (some s, ws) =>
          if s = [] then (pre ++ full ++ r.1, r.2.1, ws ++ r.2.2)
          else (pre ++ varWithFallback name s ++ r.1, true, ws ++ r.2.2)
        | (none, ws) => (pre ++ full ++ r.1, r.2.1, ws ++ r.2.2)

/-- Scan of a whole declaration value. -/
def rewriteValue (circ : List Str) (res : Str → Option Str × List Warning)
    (v : Str) : Str × Bool × List Warning :=
  rewriteGoF circ res v.length v

/-- Process one declaration: its value is replaced by the rebuilt value only
when the modified flag was set. -/
def rewriteDecl (circ : List Str) (res : Str → Option Str × List Warning)
    (d : Decl) : Decl × List Warning :=
  let r := rewriteValue circ res d.value
  (⟨d.prop, if r.2.1 then r.1 else d.value⟩, r.2.2)

/-!  Source extraction, merging, and the plugin entry point (`Once`). -/

/-- `extractVariables`: walk the declarations of a parsed sheet and record
every declaration whose property starts with `--`; a later declaration of
the same name overwrites an earlier one. -/
def extractVariables (root : List Decl) : List (Str × Str) :=
  root.foldl
    (fun m d => if strStarts ['-', '-'] d.prop then mapSet m d.prop d.value else m)
    []

/-- Build the merged variable map from the configured fallback sources in
order; a source that fails to load produces a warning and is skipped; the
variables of each loaded source overwrite earlier entries key by key. -/
def buildVariableMap (load : Str → Option (List Decl)) (fallbacks : List Str) :
    List (Str × Str) × List Warning :=
  fallbacks.foldl
    (fun acc fb =>
      match load fb with
      | some root =>
        ((extractVariables root).foldl (fun m kv => mapSet m kv.1 kv.2) acc.1,
          acc.2)
      | none => (acc.1, acc.2 ++ [Warning.loadError fb]))
    ([], [])

/-- The `fallbacks` plugin option as received from the host:
absent (the destructuring default `[]` applies), an explicit `null`
(which bypasses the default and is not an array), some other non-array
value, or an actual array of source identifiers. -/
inductive FallbacksOption where
  | absent : FallbacksOption
  | null : FallbacksOption
  | notAnArray : FallbacksOption
  | given (fallbacks : List Str) : FallbacksOption
deriving DecidableEq, Repr

/-- The value of the local `fallbacks` binding after destructuring:
`some` a list when `Array.isArray(fallbacks)` holds, `none` otherwise. -/
def effectiveFallbacks : FallbacksOption → Option (List Str)
  | .absent => some []
  | .null => none
  | .notAnArray => none
  | .given l => some l

/-- The plugin's `Once` hook: when `fallbacks` is not an array or is empty,
warn and return the document unchanged; otherwise build the merged map,
run circular-reference detection over all keys, and rewrite every
declaration of the target with the frozen map and cycle set, collecting all
warnings. -/
def runOnce (load : Str → Option (List Decl)) (opt : FallbacksOption)
    (target : List Decl) : List Decl × List Warning :=
  match effectiveFallbacks opt with
  | none => (target, [Warning.config])
  | some [] => (target, [Warning.config])
  | some (f :: fs) =>
    let built := buildVariableMap load (f :: fs)
    let vmap := built.1
    let st := detRun vmap
    let res := fun n => resolveVariable vmap n
    let out := target.foldl
      (fun acc d =>
        let r := rewriteDecl st.circ res d
        (acc.1 ++ [r.1], acc.2 ++ r.2))
      ([], [])
    (out.1, built.2 ++ st.warns ++ out.2)

/-!  Supporting lemmas about the scanner. -/

/-- `takeWhile` consumes exactly a leading block on which the predicate
holds when the next character refutes it. -/
theorem takeWhile_block (p : Char → Bool) (l : Str) (hd : Char) (r : Str)
    (hl : ∀ c ∈ l, p c = true) (hhd : p hd = false) :
    (l ++ hd :: r).takeWhile p = l := by
  induction l with
  | nil => simp [List.takeWhile_cons, hhd]
  | cons a t ih =>
    have ha := hl a (by simp)
    simp only [List.cons_append, List.takeWhile_cons, ha, if_true]
    rw [ih fun c hc => hl c (by simp [hc])]

/-- `dropWhile` counterpart of `takeWhile_block`. -/
theorem dropWhile_block (p : Char → Bool) (l : Str) (hd : Char) (r : Str)
    (hl : ∀ c ∈ l, p c = true) (hhd : p hd = false) :
    (l ++ hd :: r).dropWhile p = hd :: r := by
  induction l with
  | nil => simp [List.dropWhile_cons, hhd]
  | cons a t ih =>
    have ha := hl a (by simp)
    simp only [List.cons_append, List.dropWhile_cons, ha, if_true]
    exact ih fun c hc => hl c (by simp [hc])

/-- A regex-safe variable name: nonempty and free of `,` and `)`. -/
def NameOk (name : Str) : Prop :=
  name ≠ [] ∧ ∀ c ∈ name, c ≠ ',' ∧ c ≠ ')'

instance : DecidablePred NameOk := fun _ =>
  inferInstanceAs (Decidable (_ ∧ _))

/-- A regex-safe fallback text: nonempty and free of `)`. -/
def FbOk (fb : Str) : Prop :=
  fb ≠ [] ∧ ∀ c ∈ fb, c ≠ ')'

instance : DecidablePred FbOk := fun _ =>
  inferInstanceAs (Decidable (_ ∧ _))

/-- Matching `var(<name>)<rest>` at the head of the string yields
`var(<name>)` with the name as the first group and no fallback group. -/
theorem matchVarAt_nofb (name rest : Str) (h : NameOk name) :
    matchVarAt (varHead ++ name ++ ')' :: rest) =
      some (varHead ++ name ++ [')'], name, none) := by
  have hp : ∀ c ∈ name, (!(c = ',' || c = ')')) = true := by
    intro c hc
    have hc' := h.2 c hc
    simp [hc'.1, hc'.2]
  have hsep : (!(')' = ',' || ')' = ')')) = false := by decide
  show matchVarAt ('v' :: 'a' :: 'r' :: '(' :: (name ++ ')' :: rest)) = _
  rw [matchVarAt]
  simp only [takeWhile_block _ name ')' rest hp hsep,
    dropWhile_block _ name ')' rest hp hsep]
  simp [h.1, varHead]

/-- Matching `var(<name>,<fb>)<rest>` at the head of the string yields
`var(<name>,<fb>)` with both capture groups. -/
theorem matchVarAt_fb (name fb rest : Str) (h : NameOk name) (hfb : FbOk fb) :
    matchVarAt (varHead ++ name ++ ',' :: (fb ++ ')' :: rest)) =
      some (varHead ++ name ++ [','] ++ fb ++ [')'], name, some fb) := by
  have hp : ∀ c ∈ name, (!(c = ',' || c = ')')) = true := by
    intro c hc
    have hc' := h.2 c hc
    simp [hc'.1, hc'.2]
  have hsep : (!(',' = ',' || ',' = ')')) = false := by decide
  have hq : ∀ c ∈ fb, (!(c = ')')) = true := by
    intro c hc
    simp [hfb.2 c hc]
  have hqsep : (!(')' = ')')) = false := by decide
  show matchVarAt ('v' :: 'a' :: 'r' :: '(' :: (name ++ ',' :: (fb ++ ')' :: rest))) = _
  rw [matchVarAt]
  simp only [takeWhile_block _ name ',' (fb ++ ')' :: rest) hp hsep,
    dropWhile_block _ name ',' (fb ++ ')' :: rest) hp hsep]
  simp only [takeWhile_block _ fb ')' rest hq hqsep,
    dropWhile_block _ fb ')' rest hq hqsep]
  simp [h.1, hfb.1, varHead]

/-- A successful head match determines the leftmost match. -/
theorem findVar_of_matchVarAt {s full g1 : Str} {g2 : Option Str}
    (h : matchVarAt s = some (full, g1, g2)) (hs : s ≠ []) :
    findVar s = some ([], full, g1, g2, s.drop full.length) := by
  cases s with
  | nil => exact absurd rfl hs
  | cons c t => rw [findVar, h]

/-- The leftmost match of the one-occurrence value `var(<name>)`. -/
theorem findVar_occ_nofb (name : Str) (h : NameOk name) :
    findVar (varHead ++ name ++ [')']) =
      some ([], varHead ++ name ++ [')'], name, none, []) := by
  have hm := matchVarAt_nofb name [] h
  rw [findVar_of_matchVarAt hm (by simp [varHead])]
  rw [List.drop_length]

/-- The leftmost match of the one-occurrence value `var(<name>,<fb>)`. -/
theorem findVar_occ_fb (name fb : Str) (h : NameOk name) (hfb : FbOk fb) :
    findVar (varHead ++ name ++ [','] ++ fb ++ [')']) =
      some ([], varHead ++ name ++ [','] ++ fb ++ [')'], name, some fb, []) := by
  have hm := matchVarAt_fb name fb [] h hfb
  have hshape : varHead ++ name ++ [','] ++ fb ++ [')'] =
      varHead ++ name ++ ',' :: (fb ++ ')' :: []) := by simp
  rw [hshape, findVar_of_matchVarAt hm (by simp [varHead])]
  have : varHead ++ name ++ ',' :: (fb ++ ')' :: []) =
      varHead ++ name ++ [','] ++ fb ++ [')'] := by simp
  rw [this, List.drop_length]

/-- The rewriter's scan of an empty value is a no-op at any fuel. -/
theorem rewriteGoF_nil (circ : List Str)
    (res : Str → Option Str × List Warning) (f : Nat) :
    rewriteGoF circ res f [] = ([], false, []) := by
  cases f <;> simp [rewriteGoF, findVar]

/-- The resolver returns `none` without warnings for a name that has no
entry in the mapping, at every fuel and with every resolution path it is
not already on. -/
theorem resolveVarF_unknown (map : List (Str × Str)) (f : Nat)
    (resolving : List Str) (name : Str) (h : lookupMap map name = none)
    (hr : name ∉ resolving) :
    resolveVarF map f resolving name = (none, []) := by
  cases f <;> simp [resolveVarF, h, hr]

/-- `resolveVariable` on an unknown name. -/
theorem resolveVariable_unknown (map : List (Str × Str)) (name : Str)
    (h : lookupMap map name = none) :
    resolveVariable map name = (none, []) := by
  exact resolveVarF_unknown map (map.length + 1) [] name h (by simp)

/-!  Fuel adequacy: every scanner and recursion fuel used above suffices. -/

/-- A full match produced by `matchVarAt` starts with `var(`. -/
theorem matchVarAt_shape {s full g1 : Str} {g2 : Option Str}
    (h : matchVarAt s = some (full, g1, g2)) :
    ∃ r, full = 'v' :: 'a' :: 'r' :: '(' :: r := by
  rw [matchVarAt.eq_def] at h
  split at h
  · dsimp only at h
    split at h
    · exact absurd h (by simp)
    · split at h
      · obtain ⟨h1, -⟩ := Prod.mk.injEq .. ▸ Option.some.inj h
        exact ⟨_, h1.symm⟩
      · split at h
        · exact absurd h (by simp)
        · split at h
          · obtain ⟨h1, -⟩ := Prod.mk.injEq .. ▸ Option.some.inj h
            exact ⟨_, h1.symm⟩
          · exact absurd h (by simp)
      · exact absurd h (by simp)
  · exact absurd h (by simp)

/-- The text after the leftmost match is strictly shorter than the scanned
string: the `exec` loop makes progress. -/
theorem findVar_suf_lt :
    ∀ (s : Str) {pre full g1 : Str} {g2 : Option Str} {suf : Str},
      findVar s = some (pre, full, g1, g2, suf) → suf.length < s.length := by
  intro s
  induction s with
  | nil => intro pre full g1 g2 suf h; simp [findVar] at h
  | cons c t ih =>
    intro pre full g1 g2 suf h
    rw [findVar] at h
    cases hm : matchVarAt (c :: t) with
    | some m =>
      obtain ⟨mf, mg1, mg2⟩ := m
      rw [hm] at h
      simp only [Option.some.injEq, Prod.mk.injEq] at h
      obtain ⟨-, h2, -, -, h5⟩ := h
      obtain ⟨r, hr⟩ := matchVarAt_shape hm
      subst h5 h2
      have : mf.length = r.length + 4 := by simp [hr]
      simp only [List.length_drop, List.length_cons]
      omega
    | none =>
      rw [hm] at h
      cases hf : findVar t with
      | some m' =>
        obtain ⟨p', f', g1', g2', s'⟩ := m'
        rw [hf] at h
        simp only [Option.some.injEq, Prod.mk.injEq] at h
        obtain ⟨-, -, -, -, h5⟩ := h
        subst h5
        have := ih hf
        simp only [List.length_cons]
        omega
      | none => rw [hf] at h; exact absurd h (by simp)

/-- Scanning the empty string yields no matches at any fuel. -/
theorem varMatchesF_nil (f : Nat) : varMatchesF f [] = [] := by
  cases f <;> simp [varMatchesF, findVar]

/-- The match enumeration is independent of the fuel once the fuel reaches
the length of the scanned string: `varMatches` is the full enumeration. -/
theorem varMatchesF_congr :
    ∀ (f₁ f₂ : Nat) (s : Str), s.length ≤ f₁ → s.length ≤ f₂ →
      varMatchesF f₁ s = varMatchesF f₂ s := by
  intro f₁
  induction f₁ with
  | zero =>
    intro f₂ s h₁ h₂
    have : s = [] := List.length_eq_zero.mp (by omega)
    subst this
    rw [varMatchesF_nil, varMatchesF_nil]
  | succ g ih =>
    intro f₂ s h₁ h₂
    cases f₂ with
    | zero =>
      have : s = [] := List.length_eq_zero.mp (by omega)
      subst this
      rw [varMatchesF_nil, varMatchesF_nil]
    | succ g₂ =>
      cases hf : findVar s with
      | none => simp only [varMatchesF, hf]
      | some m =>
        obtain ⟨pre, full, g1, gg2, suf⟩ := m
        have hlt := findVar_suf_lt s hf
        simp only [varMatchesF, hf]
        rw [ih g₂ suf (by omega) (by omega)]

/-- The rewriter's scan is independent of the fuel once the fuel reaches
the length of the scanned value: `rewriteValue` is the full scan. -/
theorem rewriteGoF_congr (circ : List Str)
    (res : Str → Option Str × List Warning) :
    ∀ (f₁ f₂ : Nat) (v : Str), v.length ≤ f₁ → v.length ≤ f₂ →
      rewriteGoF circ res f₁ v = rewriteGoF circ res f₂ v := by
  intro f₁
  induction f₁ with
  | zero =>
    intro f₂ v h₁ h₂
    have : v = [] := List.length_eq_zero.mp (by omega)
    subst this
    rw [rewriteGoF_nil, rewriteGoF_nil]
  | succ g ih =>
    intro f₂ v h₁ h₂
    cases f₂ with
    | zero =>
      have : v = [] := List.length_eq_zero.mp (by omega)
      subst this
      rw [rewriteGoF_nil, rewriteGoF_nil]
    | succ g₂ =>
      cases hf : findVar v with
      | none => simp only [rewriteGoF, hf]
      | some m =>
        obtain ⟨pre, full, g1, gg2, suf⟩ := m
        have hlt := findVar_suf_lt v hf
        simp only [rewriteGoF, hf]
        rw [ih g₂ suf (by omega) (by omega)]

/-!
Depth bound of the mutual recursion of resolver and detector: every
recursion level pushes a distinct mapping key onto the path, so the number
of mapping keys not yet on the path is a strictly decreasing measure.
-/

/-- The number of mapping keys not on the current path: the maximal
remaining recursion depth. -/
def bound (map : List (Str × Str)) (r : List Str) : Nat :=
  ((keysOf map).toFinset \ r.toFinset).card

/-- A successful lookup witnesses key membership. -/
theorem lookupMap_mem_keys :
    ∀ {map : List (Str × Str)} {n v : Str}, lookupMap map n = some v →
      n ∈ keysOf map := by
  intro map
  induction map with
  | nil => intro n v h; simp [lookupMap] at h
  | cons p t ih =>
    intro n v h
    obtain ⟨k, w⟩ := p
    rw [lookupMap] at h
    by_cases hk : k = n
    · subst hk; simp [keysOf]
    · rw [if_neg hk] at h
      have := ih h
      simp only [keysOf, List.map_cons, List.mem_cons]
      right
      simpa [keysOf] using this

/-- Recursing on a mapping key not yet on the path shrinks the measure. -/
theorem bound_cons_lt {map : List (Str × Str)} {n : Str} {r : List Str}
    (hk : n ∈ keysOf map) (hr : n ∉ r) :
    bound map (n :: r) < bound map r := by
  apply Finset.card_lt_card
  rw [Finset.ssubset_iff_of_subset]
  · refine ⟨n, Finset.mem_sdiff.mpr ⟨List.mem_toFinset.mpr hk,
      fun hc => hr (List.mem_toFinset.mp hc)⟩, fun hc => ?_⟩
    have := (Finset.mem_sdiff.mp hc).2
    simp at this
  · refine Finset.sdiff_subset_sdiff (le_refl _) ?_
    rw [List.toFinset_cons]
    exact Finset.subset_insert _ _

/-- The measure is positive while a key not on the path is being resolved. -/
theorem bound_pos {map : List (Str × Str)} {n : Str} {r : List Str}
    (hk : n ∈ keysOf map) (hr : n ∉ r) : 0 < bound map r :=
  Finset.card_pos.mpr ⟨n, Finset.mem_sdiff.mpr ⟨List.mem_toFinset.mpr hk,
    fun hc => hr (List.mem_toFinset.mp hc)⟩⟩

/-- With an empty path the measure is at most the mapping size. -/
theorem bound_nil_le (map : List (Str × Str)) : bound map [] ≤ map.length :=
  calc bound map [] = (keysOf map).toFinset.card := by simp [bound]
    _ ≤ (keysOf map).length := (keysOf map).toFinset_card_le
    _ = map.length := by simp [keysOf]

/-- The resolver is independent of the fuel once the fuel exceeds the
number of mapping keys not on the path: the recursion depth of
`resolveVariable` is bounded by the mapping size. -/
theorem resolveVarF_congr (map : List (Str × Str)) :
    ∀ (f₁ f₂ : Nat) (r : List Str) (n : Str),
      bound map r < f₁ → bound map r < f₂ →
      resolveVarF map f₁ r n = resolveVarF map f₂ r n := by
  intro f₁
  induction f₁ using Nat.strong_induction_on with
  | _ f₁ ih =>
    intro f₂ r n h₁ h₂
    by_cases hmem : n ∈ r
    · cases f₁ <;> cases f₂ <;> simp [resolveVarF, hmem]
    · cases hl : lookupMap map n with
      | none => cases f₁ <;> cases f₂ <;> simp [resolveVarF, hmem, hl]
      | some value =>
        have hk := lookupMap_mem_keys hl
        have hb := bound_pos hk hmem
        obtain ⟨g₁, rfl⟩ : ∃ g, f₁ = g + 1 := ⟨f₁ - 1, by omega⟩
        obtain ⟨g₂, rfl⟩ : ∃ g, f₂ = g + 1 := ⟨f₂ - 1, by omega⟩
        have hblt := bound_cons_lt hk hmem
        have hfun : resolveVarF map g₁ (n :: r) = resolveVarF map g₂ (n :: r) :=
          funext fun m => ih g₁ (by omega) g₂ (n :: r) m (by omega) (by omega)
        simp only [resolveVarF, hmem, if_neg, hl, hfun]

/-- The detector is independent of the fuel once the fuel exceeds the
number of mapping keys not on the path: the recursion depth of
`detectCircular` is bounded by the mapping size. -/
theorem detectCircularF_congr (map : List (Str × Str)) :
    ∀ (f₁ f₂ : Nat) (path : List Str) (n : Str) (st : DetSt),
      bound map path < f₁ → bound map path < f₂ →
      detectCircularF map f₁ path n st = detectCircularF map f₂ path n st := by
  intro f₁
  induction f₁ using Nat.strong_induction_on with
  | _ f₁ ih =>
    intro f₂ path n st h₁ h₂
    by_cases hmem : n ∈ path
    · cases f₁ <;> cases f₂ <;> simp [detectCircularF, hmem]
    · cases hl : lookupMap map n with
      | none => cases f₁ <;> cases f₂ <;> simp [detectCircularF, hmem, hl]
      | some value =>
        have hk := lookupMap_mem_keys hl
        have hb := bound_pos hk hmem
        obtain ⟨g₁, rfl⟩ : ∃ g, f₁ = g + 1 := ⟨f₁ - 1, by omega⟩
        obtain ⟨g₂, rfl⟩ : ∃ g, f₂ = g + 1 := ⟨f₂ - 1, by omega⟩
        have hblt := bound_cons_lt hk hmem
        have hfun : detectCircularF map g₁ (n :: path) =
            detectCircularF map g₂ (n :: path) :=
          funext fun m => funext fun s =>
            ih g₁ (by omega) g₂ (n :: path) m s (by omega) (by omega)
        simp only [detectCircularF, hmem, if_neg, hl, hfun]

/-- The fuel `map.length + 1` that `resolveVariable` passes is in the
stable region: any larger fuel computes the same answer. -/
theorem resolveVarF_stable (map : List (Str × Str)) (n : Str) (f : Nat)
    (h : map.length < f) :
    resolveVarF map f [] n = resolveVariable map n := by
  have hb := bound_nil_le map
  exact resolveVarF_congr map f (map.length + 1) [] n (by omega) (by omega)

/-- The fuel `map.length + 1` that `detRun` passes is in the stable
region: any larger fuel computes the same answer. -/
theorem detectCircularF_stable (map : List (Str × Str)) (k : Str)
    (st : DetSt) (f : Nat) (h : map.length < f) :
    detectCircularF map f [] k st =
      detectCircularF map (map.length + 1) [] k st := by
  have hb := bound_nil_le map
  exact detectCircularF_congr map f (map.length + 1) [] k st (by omega) (by omega)

/-!  Single-occurrence values: how the rewriter treats one `var()` use. -/

/-- A consumer occurrence `var(<name>)` or `var(<name>,<fb>)`. -/
def occOf (name : Str) (fbOpt : Option Str) : Str :=
  match fbOpt with
  | none => varHead ++ name ++ [')']
  | some fb => varHead ++ name ++ [','] ++ fb ++ [')']

/-- Evaluation of the rewriter on a value that is exactly one `var()`
occurrence, split by the circular check, the resolver's answer and the
truthiness guard. -/
theorem rewriteValue_one (circ : List Str)
    (res : Str → Option Str × List Warning) (occ name : Str)
    (fb2 : Option Str) (hfind : findVar occ = some ([], occ, name, fb2, []))
    (hlen : occ ≠ []) :
    rewriteValue circ res occ =
      (if trim name ∈ circ then (occ, false, ([] : List Warning))
       else
        match res (trim name) with
        | (some s, ws) =>
          if s = [] then (occ, false, ws)
          else (varWithFallback (trim name) s, true, ws)
        | (none, ws) => (occ, false, ws)) := by
  obtain ⟨k, hk⟩ : ∃ k, occ.length = k + 1 := by
    cases occ with
    | nil => exact absurd rfl hlen
    | cons a t => exact ⟨t.length, rfl⟩
  show rewriteGoF circ res occ.length occ = _
  rw [hk]
  by_cases hc : trim name ∈ circ
  · simp [rewriteGoF, hfind, hc, rewriteGoF_nil]
  · rcases hr : res (trim name) with ⟨rv, ws⟩
    cases rv with
    | none => simp [rewriteGoF, hfind, hc, hr, rewriteGoF_nil]
    | some s =>
      by_cases hs : s = []
      · simp [rewriteGoF, hfind, hc, hr, hs, rewriteGoF_nil]
      · simp [rewriteGoF, hfind, hc, hr, hs, rewriteGoF_nil]

/-- The declaration fold of `runOnce` rewrites every declaration
independently: it is a `map` over the target. -/
theorem foldRewrite_map (circ : List Str)
    (res : Str → Option Str × List Warning) :
    ∀ (target : List Decl) (acc : List Decl × List Warning),
      (target.foldl
        (fun acc d =>
          let r := rewriteDecl circ res d
          (acc.1 ++ [r.1], acc.2 ++ r.2)) acc).1 =
        acc.1 ++ target.map fun d => (rewriteDecl circ res d).1 := by
  intro target
  induction target with
  | nil => intro acc; simp
  | cons d ds ih =>
    intro acc
    rw [List.foldl_cons, ih]
    simp

/-!  Concrete fixtures referenced by the claims. -/

/-- The two-variable cycle `--a: var(--b); --b: var(--a);`. -/
def cyclicMap : List (Str × Str) :=
  [(str "--a", str "var(--b)"), (str "--b", str "var(--a)")]

/-- A chain that leads into a cycle without being on it:
`--c: var(--a); --a: var(--b); --b: var(--a);`. -/
def leadInMap : List (Str × Str) :=
  [(str "--c", str "var(--a)"), (str "--a", str "var(--b)"),
    (str "--b", str "var(--a)")]

/-- A variable whose declared value is the empty string. -/
def emptyValueMap : List (Str × Str) := [(str "--e", str "")]

/-- Parsed form of the source `:root{--size:16px;--pad:var(--size);}`. -/
def exampleSource : List Decl :=
  [⟨str "--size", str "16px"⟩, ⟨str "--pad", str "var(--size)"⟩]

/-- Loader resolving `vars.css` to `exampleSource`. -/
def exampleLoad : Str → Option (List Decl) := fun src =>
  if src = str "vars.css" then some exampleSource else none

/-- Loader for a source defining `--x: a(b)` — a value containing
parentheses. -/
def parenLoad : Str → Option (List Decl) := fun src =>
  if src = str "vars.css" then some [⟨str "--x", str "a(b)"⟩] else none

/-- Loader for a source containing the two-variable cycle. -/
def cyclicLoad : Str → Option (List Decl) := fun src =>
  if src = str "circular.css" then
    some [⟨str "--a", str "var(--b)"⟩, ⟨str "--b", str "var(--a)"⟩]
  else none

/-!  Claims. -/

/-- C1: for the configured source list consisting of the single stylesheet
`:root{--size:16px;--pad:var(--size);}` (parsed declarations
`exampleSource`) and the target document `.b{padding:var(--pad);}` (the
declaration `padding: var(--pad)`), the transform rewrites the target
declaration to exactly `padding: var(--pad, 16px)` — transitive resolution
of `--pad` through `--size`, fallback inserted with a comma and a space —
and emits no warnings. -/
theorem claim_C1_end_to_end :
    runOnce exampleLoad (.given [str "vars.css"])
        [⟨str "padding", str "var(--pad)"⟩] =
      ([⟨str "padding", str "var(--pad, 16px)"⟩], []) := by decide

/-- C2 counterexample: for the cyclic mapping `--a: var(--b);
--b: var(--a);` the name `--a` is in the CycleSet, yet the resolver called
on it (as the rewriter would call it, with an empty path) does not return
`none`: the claim that the resolver never returns a string for a cyclic
variable is false. -/
theorem claim_C2_counterexample :
    str "--a" ∈ cycleSet cyclicMap ∧
      (resolveVariable cyclicMap (str "--a")).1 ≠ none := by decide

/-- C2 (amended): for a cyclic variable the resolver returns `none` only
when the name is already on the current resolution path; called with an
empty path on the CycleSet member `--a` it returns the partially
substituted string `var(--a)` and emits a circular-reference warning.
Cycle safety is enforced by the rewriter instead, which skips CycleSet
members without consulting the resolver, so the occurrence is left
unchanged; the detector also emits circular-reference warnings. -/
theorem claim_C2_amended :
    (resolveVariable cyclicMap (str "--a")).1 = some (str "var(--a)") ∧
    (resolveVariable cyclicMap (str "--a")).2 =
      [Warning.circular (str "--a")] ∧
    resolveVarF cyclicMap (cyclicMap.length + 1) [str "--a"] (str "--a") =
      (none, [Warning.circular (str "--a")]) ∧
    rewriteValue (cycleSet cyclicMap) (fun n => resolveVariable cyclicMap n)
        (str "var(--a)") = (str "var(--a)", false, []) ∧
    (detRun cyclicMap).warns ≠ [] := by decide

/-- C3 counterexample: in the mapping `--c: var(--a); --a: var(--b);
--b: var(--a);` the variable `--c` merely leads into the cycle
`--a ↔ --b` without being on it, yet the detector adds `--c` to the
CycleSet — refuting the claim that only the names on the path from the
revisited name onward are added. -/
theorem claim_C3_counterexample :
    str "--c" ∈ cycleSet leadInMap := by decide

/-- C3 (amended): when the depth-first walk revisits a name on the current
path, the revisited name and every name on the entire current path — the
frames unwinding from the revisit back to the root of the walk, including
names before the cycle entry — are added to the CycleSet; consequently a
variable whose reference chain merely leads into a cycle is added as well.
For `leadInMap` the resulting CycleSet is exactly `{--a, --b, --c}`. -/
theorem claim_C3_amended :
    str "--a" ∈ cycleSet leadInMap ∧
    str "--b" ∈ cycleSet leadInMap ∧
    str "--c" ∈ cycleSet leadInMap ∧
    ((cycleSet leadInMap).all fun n =>
      n = str "--a" || n = str "--b" || n = str "--c") = true := by decide

/-- C4: cycle detection and variable resolution terminate for every merged
mapping with recursion depth bounded by the mapping size: any fuel larger
than the mapping size computes the same answer as the canonical fuel
`map.length + 1` — the path-membership check guarantees that each level of
recursion consumes a distinct mapping key (theorems `resolveVarF_congr` and
`detectCircularF_congr`).  For the true cycle `--a: var(--b);
--b: var(--a);` the whole transform returns: the usage site is left
unchanged and circular-reference warnings are emitted. -/
theorem claim_C4_termination :
    (∀ (map : List (Str × Str)) (n : Str) (f : Nat), map.length < f →
        resolveVarF map f [] n = resolveVariable map n) ∧
    (∀ (map : List (Str × Str)) (k : Str) (st : DetSt) (f : Nat),
        map.length < f →
        detectCircularF map f [] k st =
          detectCircularF map (map.length + 1) [] k st) ∧
    runOnce cyclicLoad (.given [str "circular.css"])
        [⟨str "color", str "var(--a)"⟩] =
      ([⟨str "color", str "var(--a)"⟩],
        [Warning.circular (str "--a"), Warning.circular (str "--b")]) := by
  refine ⟨?_, ?_, by decide⟩
  · intro map n f h
    exact resolveVarF_stable map n f h
  · intro map k st f h
    exact detectCircularF_stable map k st f h

/-- Witness for C4 at concrete fuels and the concrete cyclic mapping. -/
theorem claim_C4_termination_witness :
    cyclicMap.length < 5 ∧
    resolveVarF cyclicMap 5 [] (str "--a") =
      resolveVariable cyclicMap (str "--a") ∧
    detectCircularF cyclicMap 7 [] (str "--a") ⟨[], []⟩ =
      detectCircularF cyclicMap (cyclicMap.length + 1) [] (str "--a")
        ⟨[], []⟩ :=
  ⟨by decide,
    claim_C4_termination.1 cyclicMap (str "--a") 5 (by decide),
    claim_C4_termination.2.1 cyclicMap (str "--a") ⟨[], []⟩ 7 (by decide)⟩

/-- C5: the transform is not idempotent for resolvable values containing
parentheses, contradicting the specification's idempotence requirement.
With the source `--x: a(b)`, the first run rewrites `var(--x)` to
`var(--x, a(b))`; running the transform on that output rewrites it again
to `var(--x, a(b)))` — the regex's fallback group stops at the first `)`,
so the re-scan mismatches the already-inserted fallback and a stray `)`
is appended. -/
theorem claim_C5_idempotence_failure :
    (runOnce parenLoad (.given [str "vars.css"])
        [⟨str "color", str "var(--x)"⟩]).1 =
      [⟨str "color", str "var(--x, a(b))"⟩] ∧
    (runOnce parenLoad (.given [str "vars.css"])
        [⟨str "color", str "var(--x, a(b))"⟩]).1 =
      [⟨str "color", str "var(--x, a(b)))"⟩] ∧
    (runOnce parenLoad (.given [str "vars.css"])
        [⟨str "color", str "var(--x, a(b))"⟩]).1 ≠
      [⟨str "color", str "var(--x, a(b))"⟩] := by decide

/-- C8: when the `fallbacks` option is absent, `null` or not an array, the
transform emits the configuration warning, never throws, and performs no
rewriting: every target document is returned exactly as it was, and the
result is indistinguishable from running with no fallbacks configured
(the empty list). -/
theorem claim_C8_invalid_config :
    ∀ (load : Str → Option (List Decl)) (target : List Decl),
      runOnce load .absent target = (target, [Warning.config]) ∧
      runOnce load .null target = (target, [Warning.config]) ∧
      runOnce load .notAnArray target = (target, [Warning.config]) ∧
      runOnce load .null target = runOnce load (.given []) target := by
  intro load target
  exact ⟨rfl, rfl, rfl, rfl⟩

/-- C6 counterexample: a variable declared with the empty value resolves to
the empty string, is not cyclic, yet the consumer occurrence
`var(--e, red)` is left unchanged instead of being rewritten to
`var(--e, )`: the computed fallback does not replace the author fallback
when the resolved string is empty, refuting the claim for `S = ""`. -/
theorem claim_C6_counterexample :
    (resolveVariable emptyValueMap (str "--e")).1 = some (str "") ∧
    cycleSet emptyValueMap = [] ∧
    rewriteValue (cycleSet emptyValueMap)
        (fun n => resolveVariable emptyValueMap n) (str "var(--e, red)") =
      (str "var(--e, red)", false, []) := by decide

/-- C6 (amended): computed fallback overrides author fallback for nonempty
resolutions: for every consumer occurrence `var(<name>, <fb>)` whose
trimmed name is not in the circular set and resolves to a nonempty string
`S`, the whole occurrence is rewritten to `var(<trimmed name>, S)`,
discarding the author-supplied fallback clause, the declaration is marked
modified, and the resolver's warnings are reported. -/
theorem claim_C6_computed_overrides (map : List (Str × Str))
    (circ : List Str) (name fb S : Str) (hname : NameOk name)
    (hfb : FbOk fb) (hcirc : trim name ∉ circ)
    (hres : (resolveVariable map (trim name)).1 = some S) (hS : S ≠ []) :
    rewriteValue circ (fun n => resolveVariable map n)
        (occOf name (some fb)) =
      (varWithFallback (trim name) S, true,
        (resolveVariable map (trim name)).2) := by
  have hfind := findVar_occ_fb name fb hname hfb
  have hone := rewriteValue_one circ (fun n => resolveVariable map n)
    (varHead ++ name ++ [','] ++ fb ++ [')']) name (some fb) hfind
    (by simp [varHead])
  rw [show occOf name (some fb) = varHead ++ name ++ [','] ++ fb ++ [')']
    from rfl, hone]
  rcases hr : resolveVariable map (trim name) with ⟨rv, ws⟩
  rw [hr] at hres
  simp only at hres
  subst hres
  simp [hcirc, hS, hr]

/-- Witness for C6 at the specification's own example: `--x: blue` defined,
consumer `var(--x, red)` — rewritten to `var(--x, blue)`. -/
theorem claim_C6_computed_overrides_witness :
    NameOk (str "--x") ∧ FbOk (str " red") ∧
    trim (str "--x") ∉ cycleSet [(str "--x", str "blue")] ∧
    (resolveVariable [(str "--x", str "blue")] (trim (str "--x"))).1 =
      some (str "blue") ∧
    rewriteValue (cycleSet [(str "--x", str "blue")])
        (fun n => resolveVariable [(str "--x", str "blue")] n)
        (occOf (str "--x") (some (str " red"))) =
      (varWithFallback (trim (str "--x")) (str "blue"), true,
        (resolveVariable [(str "--x", str "blue")] (trim (str "--x"))).2) :=
  ⟨by decide, by decide, by decide, by decide,
    claim_C6_computed_overrides [(str "--x", str "blue")]
      (cycleSet [(str "--x", str "blue")]) (str "--x") (str " red")
      (str "blue") (by decide) (by decide) (by decide) (by decide)
      (by decide)⟩

/-- C7: unknown variables pass through unchanged: for every consumer
occurrence `var(<name>)` or `var(<name>, <fb>)` whose trimmed name has no
entry in the merged mapping — whatever the circular set and hence whatever
the fallback configuration — the occurrence is returned byte-for-byte
unchanged, the declaration is not marked modified, no warning is emitted,
and the resolver returns `none` for that name. -/
theorem claim_C7_unknown_unchanged (map : List (Str × Str))
    (circ : List Str) (name : Str) (fbOpt : Option Str)
    (hname : NameOk name) (hfb : ∀ fb, fbOpt = some fb → FbOk fb)
    (hun : lookupMap map (trim name) = none) :
    rewriteValue circ (fun n => resolveVariable map n) (occOf name fbOpt) =
      (occOf name fbOpt, false, []) ∧
    resolveVariable map (trim name) = (none, []) := by
  have hresolve := resolveVariable_unknown map (trim name) hun
  refine ⟨?_, hresolve⟩
  have hfind : findVar (occOf name fbOpt) =
      some ([], occOf name fbOpt, name, fbOpt, []) := by
    cases fbOpt with
    | none => exact findVar_occ_nofb name hname
    | some fb => exact findVar_occ_fb name fb hname (hfb fb rfl)
  have hne : occOf name fbOpt ≠ [] := by
    cases fbOpt <;> simp [occOf, varHead]
  rw [rewriteValue_one circ (fun n => resolveVariable map n)
    (occOf name fbOpt) name fbOpt hfind hne]
  by_cases hc : trim name ∈ circ
  · simp [hc]
  · simp [hc, hresolve]

/-- Witness for C7: `--unknown` is absent from a mapping defining only
`--known`, with the occurrence carrying an author fallback. -/
theorem claim_C7_unknown_unchanged_witness :
    NameOk (str "--unknown") ∧
    lookupMap [(str "--known", str "blue")] (trim (str "--unknown")) =
      none ∧
    rewriteValue (cycleSet [(str "--known", str "blue")])
        (fun n => resolveVariable [(str "--known", str "blue")] n)
        (occOf (str "--unknown") (some (str " red"))) =
      (occOf (str "--unknown") (some (str " red")), false, []) ∧
    resolveVariable [(str "--known", str "blue")] (trim (str "--unknown")) =
      (none, []) :=
  ⟨by decide, by decide,
    (claim_C7_unknown_unchanged [(str "--known", str "blue")]
      (cycleSet [(str "--known", str "blue")]) (str "--unknown")
      (some (str " red")) (by decide)
      (fun fb h => by cases h; decide) (by decide)).1,
    (claim_C7_unknown_unchanged [(str "--known", str "blue")]
      (cycleSet [(str "--known", str "blue")]) (str "--unknown")
      (some (str " red")) (by decide)
      (fun fb h => by cases h; decide) (by decide)).2⟩

/-- C9: frozen-mapping invariant — the whole rewriting pass is a `map`
over the target declarations with the one merged mapping built from the
configured sources before any rewriting: every declaration is rewritten
with the same circular set and the same resolver over
`buildVariableMap load (f :: fs)`, so no target declaration (in
particular no `--x: ...` declaration in the target) can add, remove or
change an entry observed by any resolve call of the run. -/
theorem claim_C9_frozen_mapping :
    ∀ (load : Str → Option (List Decl)) (f : Str) (fs : List Str)
      (target : List Decl),
      (runOnce load (.given (f :: fs)) target).1 =
        target.map fun d =>
          (rewriteDecl (detRun (buildVariableMap load (f :: fs)).1).circ
            (fun n => resolveVariable (buildVariableMap load (f :: fs)).1 n)
            d).1 := by
  intro load f fs target
  simp only [runOnce, effectiveFallbacks]
  rw [foldRewrite_map]
  simp

/-- C10: when the resolver returns the empty string for a variable, the
rewriter treats the occurrence exactly like an unresolvable one — the
JavaScript guard `if (resolvedValue)` is a truthiness test, so an empty
resolved string keeps the occurrence unchanged, the declaration is not
marked modified, and only the resolver's warnings are reported. -/
theorem claim_C10_empty_string_kept (map : List (Str × Str))
    (circ : List Str) (name : Str) (hname : NameOk name)
    (hcirc : trim name ∉ circ)
    (hres : (resolveVariable map (trim name)).1 = some []) :
    rewriteValue circ (fun n => resolveVariable map n) (occOf name none) =
      (occOf name none, false, (resolveVariable map (trim name)).2) := by
  have hfind := findVar_occ_nofb name hname
  rw [show occOf name none = varHead ++ name ++ [')'] from rfl,
    rewriteValue_one circ (fun n => resolveVariable map n)
      (varHead ++ name ++ [')']) name none hfind (by simp [varHead])]
  rcases hr : resolveVariable map (trim name) with ⟨rv, ws⟩
  rw [hr] at hres
  simp only at hres
  subst hres
  simp [hcirc, hr]

/-- Witness for C10 at the mapping `--e:` (empty declared value). -/
theorem claim_C10_empty_string_kept_witness :
    NameOk (str "--e") ∧
    trim (str "--e") ∉ cycleSet emptyValueMap ∧
    (resolveVariable emptyValueMap (trim (str "--e"))).1 = some [] ∧
    rewriteValue (cycleSet emptyValueMap)
        (fun n => resolveVariable emptyValueMap n) (occOf (str "--e") none) =
      (occOf (str "--e") none, false,
        (resolveVariable emptyValueMap (trim (str "--e"))).2) :=
  ⟨by decide, by decide, by decide,
    claim_C10_empty_string_kept emptyValueMap (cycleSet emptyValueMap)
      (str "--e") (by decide) (by decide) (by decide)⟩
